import Mathlib

/-!
Verification of the task classification, sorting and optimistic-completion
reconciliation logic of the TickTick Linux widget
(src/ticktick_widget/utils/task_grouping.py, src/ticktick_widget/gui/main_widget.py,
src/ticktick_widget/backend/api.py), as a shallow embedding in Lean.

Modelling conventions:
  * Instants are integers, minutes since the Unix epoch in UTC.
  * A timezone is modelled as a fixed UTC offset in minutes (Python tzinfo
    objects used by the code are applied to concrete instants; for the
    properties at stake only the offset at the relevant instant matters).
  * Parsing of ISO-8601 strings is abstracted: an optional string field
    is embedded as `Option (Option Int)` where `none` stands for an absent
    or empty value, `some none` for a present but unparsable value, and
    `some (some t)` for a value parsing to the instant `t`.
  * Python's stable sort (Timsort, documented stable) is modelled by a
    stable insertion sort on the same comparison.
-/

namespace TickTick

/-- Minutes since the Unix epoch, UTC. -/
abbrev Instant := Int

/-- A timezone, as its fixed UTC offset in minutes. -/
abbrev TZ := Int

/-- Minutes in a day. -/
def minutesPerDay : Int := 1440

/-- Wall-clock minutes of instant `t` in timezone `off`: models
`dt.astimezone(tz)` keeping only the local wall-clock reading. -/
def wallClock (off : TZ) (t : Instant) : Int := t + off

/-- Models `dt.astimezone(tz).replace(hour=0, minute=0, second=0, microsecond=0)`
as the wall-clock value of that local midnight.  Two aware datetimes carrying
the same fixed offset compare exactly as their wall-clock values do, so the
datetime comparisons in the source are embedded as comparisons of these
wall-clock day starts. -/
def dayStart (off : TZ) (t : Instant) : Int :=
  wallClock off t - (wallClock off t) % minutesPerDay

/-- Models `aware_local_datetime.timestamp()`: back from the wall-clock
reading in timezone `off` to the absolute epoch value. -/
def epochOfWall (off : TZ) (w : Int) : Int := w - off

/-- A task dictionary, restricted to the fields the core logic reads.
`timeZone`: `none` = absent or falsy, `some none` = present but not a valid
IANA zone, `some (some o)` = valid zone with offset `o`.
`dueDate` and `createdTime`: `none` = absent or empty, `some none` = present
but unparsable, `some (some t)` = parses to instant `t`.
`priority`: `none` models an absent key (read with `.get('priority', 0)`). -/
structure Task where
  id : String
  title : String
  priority : Option Int
  timeZone : Option (Option TZ)
  dueDate : Option (Option Instant)
  createdTime : Option (Option Instant)
deriving Repr, DecidableEq

/-- `get_user_timezone` (task_grouping.py, lines 7-39): scan the tasks in
order, return the zone of the first task whose `timeZone` field is truthy and
names a valid zone; skip truthy-but-invalid values; fall back to the system
timezone `sysTz` when available, and to UTC (offset 0) otherwise. -/
def get_user_timezone (sysTz : Option TZ) : List Task → TZ
  | [] =>
    match sysTz with
    | some s => s
    | none => 0
  | t :: ts =>
    match t.timeZone with
    | some (some off) => off
    | some none => get_user_timezone sysTz ts
    | none => get_user_timezone sysTz ts

/-- The four bucket keys of `group_tasks_by_time`. -/
inductive GroupKey where
  | overdue
  | today
  | tomorrow
  | later
deriving Repr, DecidableEq

/-- The loop body of `group_tasks_by_time` (task_grouping.py, lines 72-102):
which bucket a single task lands in, given the resolved timezone and the
wall-clock day start of `now`. -/
def classify_task (tz : TZ) (todayStart : Int) (t : Task) : GroupKey :=
  match t.dueDate with
  | none => .later
  | some none => .later
  | some (some d) =>
    let ds := dayStart tz d
    if ds < todayStart then .overdue
    else if ds = todayStart then .today
    else if ds = todayStart + minutesPerDay then .tomorrow
    else .later

/-- The classifier's result: the Python function returns a dict with exactly
the keys overdue, today, tomorrow, later in every branch, embedded as a
four-field structure. -/
structure Groups where
  overdue : List Task
  today : List Task
  tomorrow : List Task
  later : List Task
deriving Repr, DecidableEq

/-- The `for task in tasks` loop of `group_tasks_by_time`: each task is
appended to the bucket `classify_task` selects, preserving input order inside
each bucket. -/
def group_go (tz : TZ) (todayStart : Int) : List Task → Groups
  | [] => ⟨[], [], [], []⟩
  | t :: ts =>
    let g := group_go tz todayStart ts
    match classify_task tz todayStart t with
    | .overdue => { g with overdue := t :: g.overdue }
    | .today => { g with today := t :: g.today }
    | .tomorrow => { g with tomorrow := t :: g.tomorrow }
    | .later => { g with later := t :: g.later }

/-- `group_tasks_by_time` (task_grouping.py, lines 42-104): empty input
returns four empty buckets; otherwise the timezone is resolved from the
tasks, `today_start` is midnight of `now` in that timezone, and each task is
bucketed by the day start of its due date. `now` is the current instant and
`sysTz` the system timezone available to the fallback. -/
def group_tasks_by_time (sysTz : Option TZ) (now : Instant) (tasks : List Task) : Groups :=
  if tasks.isEmpty then ⟨[], [], [], []⟩
  else
    let tz := get_user_timezone sysTz tasks
    group_go tz (dayStart tz now) tasks

/-! ### The Group Sorter -/

/-- Stable insertion: place `x` before the first element `y` with
`le x y = true`.  Used (via `sortStable`) to model Python's stable sorts. -/
def insertLe (le : Task → Task → Bool) (x : Task) : List Task → List Task
  | [] => [x]
  | y :: ys => if le x y then x :: y :: ys else y :: insertLe le x ys

/-- Model of Python's `sorted(l, key=k)` / `l.sort(key=k)` where
`le a b` decides `k a <= k b`: a stable sort realised as insertion sort.
Earlier input elements are inserted later and land before elements with an
equal key, matching Timsort's documented stability. -/
def sortStable (le : Task → Task → Bool) (l : List Task) : List Task :=
  l.foldr (insertLe le) []

/-- Sort keys: triples compared lexicographically, modelling the Python
tuples `(-priority, secondary)` where the middle component encodes whether
the secondary value is finite (`0`) or `float inf` (`1`). -/
def leKey (a b : Int × Int × Int) : Bool :=
  decide (a.1 < b.1) ||
    (decide (a.1 = b.1) &&
      (decide (a.2.1 < b.2.1) ||
        (decide (a.2.1 = b.2.1) && decide (a.2.2 ≤ b.2.2))))

/-- The `sort_key` closure of `sort_tasks_in_group` (task_grouping.py,
lines 166-189).  First component: `-priority` with `task.get('priority', 0)`.
For `today`/`tomorrow` the secondary key is the due instant's epoch value
after conversion to the user timezone (`(1, 0)` encodes the
`float('inf')` fallback for an absent or unparsable `dueDate`); for
`overdue`/`later` it is the creation instant's epoch value, with `0` as the
fallback for an absent or unparsable `createdTime`. -/
def sort_key (tz : TZ) (gk : GroupKey) (t : Task) : Int × Int × Int :=
  let p := t.priority.getD 0
  match gk with
  | .today | .tomorrow =>
    match t.dueDate with
    | some (some d) => (-p, 0, epochOfWall tz (wallClock tz d))
    | _ => (-p, 1, 0)
  | .overdue | .later =>
    match t.createdTime with
    | some (some c) => (-p, 0, epochOfWall tz (wallClock tz c))
    | _ => (-p, 0, 0)

/-- Comparison on tasks induced by `sort_key`. -/
def taskLe (tz : TZ) (gk : GroupKey) (a b : Task) : Bool :=
  leKey (sort_key tz gk a) (sort_key tz gk b)

/-- The sorting pass of `sort_tasks_in_group` after the timezone has been
resolved (task_grouping.py, lines 166-191). -/
def sort_with_tz (tz : TZ) (gk : GroupKey) (tasks : List Task) : List Task :=
  sortStable (taskLe tz gk) tasks

/-- `sort_tasks_in_group` (task_grouping.py, lines 148-191): empty input
returns the empty list; otherwise the user timezone is resolved from the
tasks and the list is stably sorted by `sort_key`. -/
def sort_tasks_in_group (sysTz : Option TZ) (tasks : List Task) (gk : GroupKey) : List Task :=
  if tasks.isEmpty then []
  else sort_with_tz (get_user_timezone sysTz tasks) gk tasks

/-- Comparison by title, as used by the rollback path
(`self.tasks.sort(key=lambda x: x.get('title', ''))`). -/
def titleLe (a b : Task) : Bool := decide (a.title ≤ b.title)

/-! ### The Completion Reconciler and refresh (main_widget.py) -/

/-- The widget state the reconciliation logic manipulates: the working set
`self.tasks`, the single rollback attribute `self.pending_completion_task`
(`none` models the attribute being absent), and the status label text. -/
structure WState where
  tasks : List Task
  pending : Option Task
  status : String
deriving Repr, DecidableEq

/-- `TickTickWidget.handle_task_completion` (main_widget.py, lines 548-578),
its synchronous part: a falsy (empty) task id returns immediately; a task id
not found in the working set returns immediately; otherwise a copy of the
found task is stored in `pending_completion_task` (overwriting any previous
value), every task with that id is removed from the working set, and the
status is set optimistically.  Starting the background worker has no further
effect on this state. -/
def handle_task_completion (s : WState) (task_id : String) : WState :=
  if task_id = "" then s
  else
    match s.tasks.find? (fun t => t.id = task_id) with
    | none => s
    | some task_data =>
      { s with
        pending := some task_data,
        tasks := s.tasks.filter (fun t => !(t.id = task_id)),
        status := "Completed: " ++ task_data.title }

/-- `TickTickWidget.on_task_completion_failed` (main_widget.py, lines
607-633): when a `pending_completion_task` attribute exists, its saved task
is appended to the working set, the working set is re-sorted by title, and
the attribute is deleted; in every case the status reports the error.  The
`task_id` argument is only used for the per-widget error display, which has
no effect on this state. -/
def on_task_completion_failed (s : WState) (_task_id : String) (err : String) : WState :=
  match s.pending with
  | some p =>
    { tasks := sortStable titleLe (s.tasks ++ [p]),
      pending := none,
      status := "Error completing task: " ++ err }
  | none => { s with status := "Error completing task: " ++ err }

/-- `get_active_standard_tasks` (api.py, lines 6-60).  The remote call and
the cleaning of the raw response are abstracted as an input that either
yields the cleaned active task list or raises; the function's own
`try/except` catches every exception and returns the empty list
(lines 58-60). -/
def get_active_standard_tasks (fetch : Except String (List Task)) : List Task :=
  match fetch with
  | .ok ts => ts
  | .error _ => []

/-- `TickTickWidget.refresh_tasks` (main_widget.py, lines 349-370): clear any
pending completion attribute, set the refreshing status, call
`get_active_standard_tasks` (which never raises: it returns `[]` on fetch
failure, so the `except` branch of `refresh_tasks` is unreachable on a fetch
error), then on a truthy save replace the working set and report the count;
on a falsy save leave the working set and report the save failure.
`saveOk` is the boolean returned by `save_tasks_to_json`. -/
def refresh_tasks (s : WState) (fetch : Except String (List Task)) (saveOk : Bool) : WState :=
  let fetched := get_active_standard_tasks fetch
  if saveOk then
    { tasks := fetched,
      pending := none,
      status := "Last updated - " ++ toString fetched.length ++ " tasks" }
  else
    { tasks := s.tasks,
      pending := none,
      status := "Failed to save tasks" }

/-! ### The Local Cache save (api.py, save_tasks_to_json) -/

/-- Writing a chunk sequence into an open file, with an injected I/O fault:
`failAfter = some n` raises after `n` chunks have been written, `none` lets
every write succeed.  Returns the success flag and the chunk sequence that
reached the file. -/
def writeChunks : List String → Option Nat → List String → Bool × List String
  | _, some 0, acc => (false, acc)
  | [], _, acc => (true, acc)
  | c :: cs, some (n + 1), acc => writeChunks cs (some n) (acc ++ [c])
  | c :: cs, none, acc => writeChunks cs none (acc ++ [c])

/-- `save_tasks_to_json` (api.py, lines 263-280) over an abstract file state
`old` (the current content of data/allActiveTasks.json, `none` = absent).
`chunks` is the serialized form of the task list as the sequence of writes
`json.dump` performs.  `openFail` models `open(file_path, 'w')` itself
raising (the file is left untouched); otherwise the open truncates the file
and the chunks are written until `failAfter` injects an I/O error.  Every
exception is caught and reported by returning `false`. -/
def save_tasks_to_json (old : Option (List String)) (chunks : List String)
    (openFail : Bool) (failAfter : Option Nat) : Bool × Option (List String) :=
  if openFail then (false, old)
  else
    let r := writeChunks chunks failAfter []
    (r.1, some r.2)

/-! ### Lemmas about the stable sort -/

theorem insertLe_perm (le : Task → Task → Bool) (x : Task) (l : List Task) :
    (insertLe le x l).Perm (x :: l) := by
  induction l with
  | nil => rfl
  | cons y ys ih =>
    cases hc : le x y with
    | true => simp [insertLe, hc]
    | false =>
      simp only [insertLe, hc, Bool.false_eq_true, if_false]
      exact (ih.cons y).trans (List.Perm.swap x y ys)

theorem sortStable_cons (le : Task → Task → Bool) (a : Task) (l : List Task) :
    sortStable le (a :: l) = insertLe le a (sortStable le l) := rfl

theorem sortStable_perm (le : Task → Task → Bool) (l : List Task) :
    (sortStable le l).Perm l := by
  induction l with
  | nil => rfl
  | cons a l ih =>
    rw [sortStable_cons]
    exact (insertLe_perm le a (sortStable le l)).trans (ih.cons a)

theorem insertLe_pairwise (le : Task → Task → Bool)
    (htot : ∀ a b, le a b = true ∨ le b a = true)
    (htr : ∀ a b c, le a b = true → le b c = true → le a c = true)
    (x : Task) (l : List Task) (h : l.Pairwise fun a b => le a b = true) :
    (insertLe le x l).Pairwise fun a b => le a b = true := by
  induction l with
  | nil => simp [insertLe]
  | cons y ys ih =>
    rw [List.pairwise_cons] at h
    obtain ⟨hy, hys⟩ := h
    cases hc : le x y with
    | true =>
      simp only [insertLe, hc, if_true]
      refine List.Pairwise.cons ?_ (List.Pairwise.cons hy hys)
      intro z hz
      rcases List.mem_cons.mp hz with rfl | hz2
      · exact hc
      · exact htr x y z hc (hy z hz2)
    | false =>
      simp only [insertLe, hc, Bool.false_eq_true, if_false]
      refine List.Pairwise.cons ?_ (ih hys)
      intro z hz
      have hz2 : z = x ∨ z ∈ ys := by
        have := (insertLe_perm le x ys).mem_iff.mp hz
        simpa using this
      rcases hz2 with rfl | hz3
      · rcases htot z y with hzy | hyz
        · exact absurd hzy (by simp [hc])
        · exact hyz
      · exact hy z hz3

theorem sortStable_pairwise (le : Task → Task → Bool)
    (htot : ∀ a b, le a b = true ∨ le b a = true)
    (htr : ∀ a b c, le a b = true → le b c = true → le a c = true)
    (l : List Task) :
    (sortStable le l).Pairwise fun a b => le a b = true := by
  induction l with
  | nil => simp [sortStable]
  | cons a l ih =>
    rw [sortStable_cons]
    exact insertLe_pairwise le htot htr a (sortStable le l) ih

theorem leKey_refl (a : Int × Int × Int) : leKey a a = true := by
  simp [leKey]

theorem leKey_total (a b : Int × Int × Int) : leKey a b = true ∨ leKey b a = true := by
  simp only [leKey, Bool.or_eq_true, Bool.and_eq_true, decide_eq_true_eq]
  omega

theorem leKey_trans (a b c : Int × Int × Int)
    (h1 : leKey a b = true) (h2 : leKey b c = true) : leKey a c = true := by
  simp only [leKey, Bool.or_eq_true, Bool.and_eq_true, decide_eq_true_eq] at h1 h2 ⊢
  omega

theorem filter_insertLe_of_ne (k : Task → Int × Int × Int) (x : Task) (l : List Task)
    (v : Int × Int × Int) (hv : ¬ k x = v) :
    (insertLe (fun a b => leKey (k a) (k b)) x l).filter (fun z => decide (k z = v))
      = l.filter (fun z => decide (k z = v)) := by
  induction l with
  | nil => simp [insertLe, hv]
  | cons y ys ih =>
    cases hc : leKey (k x) (k y) with
    | true => simp [insertLe, hc, hv]
    | false =>
      simp only [insertLe, hc, Bool.false_eq_true, if_false, List.filter_cons]
      rw [ih]

theorem filter_insertLe_of_eq (k : Task → Int × Int × Int) (x : Task) (l : List Task) :
    (insertLe (fun a b => leKey (k a) (k b)) x l).filter (fun z => decide (k z = k x))
      = x :: l.filter (fun z => decide (k z = k x)) := by
  induction l with
  | nil => simp [insertLe]
  | cons y ys ih =>
    cases hc : leKey (k x) (k y) with
    | true => simp [insertLe, hc]
    | false =>
      have hne : ¬ k y = k x := by
        intro he
        rw [he] at hc
        exact absurd (leKey_refl (k x)) (by simp [hc])
      simp only [insertLe, hc, Bool.false_eq_true, if_false, List.filter_cons]
      rw [ih]
      simp [hne]

theorem sortStable_filter_key (k : Task → Int × Int × Int) (l : List Task)
    (v : Int × Int × Int) :
    (sortStable (fun a b => leKey (k a) (k b)) l).filter (fun z => decide (k z = v))
      = l.filter (fun z => decide (k z = v)) := by
  induction l with
  | nil => rfl
  | cons a l ih =>
    rw [sortStable_cons]
    by_cases hv : k a = v
    · subst hv
      rw [filter_insertLe_of_eq k a (sortStable _ l), ih, List.filter_cons]
      simp
    · rw [filter_insertLe_of_ne k a (sortStable _ l) v hv, ih, List.filter_cons]
      simp [hv]

/-! ### Spec-side definitions (written from the spec's words, for comparison) -/

/-- The secondary ordering the spec states for each group: for today and
tomorrow, ascending due instant with unparsable or missing due dates last
(positive infinity); for overdue and later, ascending creation instant with
unparsable or missing creation times treated as zero (the epoch). -/
def spec_secondary_le (gk : GroupKey) (a b : Task) : Prop :=
  match gk with
  | .today | .tomorrow =>
    match a.dueDate, b.dueDate with
    | some (some da), some (some db) => da ≤ db
    | some (some _), _ => True
    | none, some (some _) => False
    | some none, some (some _) => False
    | _, _ => True
  | .overdue | .later =>
    (match a.createdTime with
     | some (some c) => c
     | _ => 0) ≤
      (match b.createdTime with
       | some (some c) => c
       | _ => 0)

/-- The composite ordering the spec states for the Group Sorter: priority
descending first (priority 5 before 0, defaulting an absent priority to 0),
then the group-appropriate secondary key ascending. -/
def spec_sort_order (gk : GroupKey) (a b : Task) : Prop :=
  b.priority.getD 0 < a.priority.getD 0 ∨
    (a.priority.getD 0 = b.priority.getD 0 ∧ spec_secondary_le gk a b)

/-- The Timezone Resolver as the spec words it: the first valid zone of any
task in the given order, else the system timezone, else UTC. -/
def resolver_spec (sysTz : Option TZ) (tasks : List Task) : TZ :=
  match tasks.findSome? (fun t =>
      match t.timeZone with
      | some (some o) => some o
      | _ => none) with
  | some o => o
  | none =>
    match sysTz with
    | some s => s
    | none => 0

/-! ### Bridging lemmas for the sorter -/

theorem sort_key_tz_irrel (tz1 tz2 : TZ) (gk : GroupKey) (t : Task) :
    sort_key tz1 gk t = sort_key tz2 gk t := by
  obtain ⟨i, ti, p, tzf, dd, ct⟩ := t
  cases gk <;> rcases dd with _ | _ | d <;> rcases ct with _ | _ | c <;>
    simp [sort_key, epochOfWall, wallClock]

theorem taskLe_iff_spec_order (tz : TZ) (gk : GroupKey) (a b : Task) :
    taskLe tz gk a b = true ↔ spec_sort_order gk a b := by
  obtain ⟨ia, tia, pa, tza, dda, cta⟩ := a
  obtain ⟨ib, tib, pb, tzb, ddb, ctb⟩ := b
  cases gk
  case overdue =>
    rcases cta with _ | _ | ca <;> rcases ctb with _ | _ | cb <;>
      simp [taskLe, sort_key, leKey, spec_sort_order, spec_secondary_le,
        epochOfWall, wallClock]
  case later =>
    rcases cta with _ | _ | ca <;> rcases ctb with _ | _ | cb <;>
      simp [taskLe, sort_key, leKey, spec_sort_order, spec_secondary_le,
        epochOfWall, wallClock]
  case today =>
    rcases dda with _ | _ | da <;> rcases ddb with _ | _ | db <;>
      simp [taskLe, sort_key, leKey, spec_sort_order, spec_secondary_le,
        epochOfWall, wallClock]
  case tomorrow =>
    rcases dda with _ | _ | da <;> rcases ddb with _ | _ | db <;>
      simp [taskLe, sort_key, leKey, spec_sort_order, spec_secondary_le,
        epochOfWall, wallClock]

/-! ### Claims about the Group Sorter and the Timezone Resolver -/

/-- C4: for every task list, group key and timezone, the Group Sorter
returns a permutation of its input ordered primarily by priority descending
(priority 5 before 0); within equal priority, for today and tomorrow by
ascending due instant with unparsable or missing due dates last (positive
infinity), and for overdue and later by ascending creation instant with
unparsable or missing creation times keyed as zero (the epoch). -/
theorem sort_tasks_in_group_ordering (sysTz : Option TZ) (gk : GroupKey)
    (tasks : List Task) :
    (sort_tasks_in_group sysTz tasks gk).Perm tasks ∧
    (sort_tasks_in_group sysTz tasks gk).Pairwise (spec_sort_order gk) := by
  cases tasks with
  | nil => simp [sort_tasks_in_group]
  | cons a l =>
    have hrw : sort_tasks_in_group sysTz (a :: l) gk
        = sortStable (taskLe (get_user_timezone sysTz (a :: l)) gk) (a :: l) := rfl
    rw [hrw]
    constructor
    · exact sortStable_perm _ (a :: l)
    · have hp := sortStable_pairwise (taskLe (get_user_timezone sysTz (a :: l)) gk)
        (fun x y => leKey_total _ _)
        (fun x y z h1 h2 => leKey_trans _ _ _ h1 h2)
        (a :: l)
      exact hp.imp fun h => (taskLe_iff_spec_order _ gk _ _).mp h

/-- C5: the Group Sorter is stable: for every task list, group key and
composite key value, the tasks carrying that exact sort key (equal priority
and equal secondary key) appear in the output in the same relative order as
in the input — their filtered subsequence is unchanged. -/
theorem sort_tasks_in_group_stable (sysTz : Option TZ) (gk : GroupKey)
    (tasks : List Task) (v : Int × Int × Int) :
    (sort_tasks_in_group sysTz tasks gk).filter
        (fun t => decide (sort_key (get_user_timezone sysTz tasks) gk t = v))
      = tasks.filter
        (fun t => decide (sort_key (get_user_timezone sysTz tasks) gk t = v)) := by
  cases tasks with
  | nil => rfl
  | cons a l =>
    exact sortStable_filter_key (sort_key (get_user_timezone sysTz (a :: l)) gk)
      (a :: l) v

/-- C10: the Group Sorter's output is independent of the resolved timezone:
sorting the same task list for the same group under any two timezones yields
the same sequence, because each secondary key is the absolute epoch value of
the timezone-converted timestamp, which the conversion does not change. -/
theorem sort_with_tz_timezone_independent (tz1 tz2 : TZ) (gk : GroupKey)
    (tasks : List Task) :
    sort_with_tz tz1 gk tasks = sort_with_tz tz2 gk tasks := by
  have hk : taskLe tz1 gk = taskLe tz2 gk := by
    funext a b
    unfold taskLe
    rw [sort_key_tz_irrel tz1 tz2 gk a, sort_key_tz_irrel tz1 tz2 gk b]
  unfold sort_with_tz sortStable
  rw [hk]

/-- C8: the Timezone Resolver returns the zone of the first task in input
order whose timeZone field holds a valid zone, skipping absent and invalid
values; with no such task it returns the system timezone when available and
UTC otherwise.  It is a total function of the task sequence (hence
deterministic and never failing), and equals the resolver the spec words
describe. -/
theorem get_user_timezone_spec (sysTz : Option TZ) (tasks : List Task) :
    get_user_timezone sysTz tasks = resolver_spec sysTz tasks := by
  induction tasks with
  | nil => rfl
  | cons t ts ih =>
    rcases h : t.timeZone with _ | _ | o
    · rw [show get_user_timezone sysTz (t :: ts) = get_user_timezone sysTz ts from by
        simp [get_user_timezone, h], ih]
      unfold resolver_spec
      rw [List.findSome?_cons]
      simp [h]
    · rw [show get_user_timezone sysTz (t :: ts) = get_user_timezone sysTz ts from by
        simp [get_user_timezone, h], ih]
      unfold resolver_spec
      rw [List.findSome?_cons]
      simp [h]
    · rw [show get_user_timezone sysTz (t :: ts) = o from by
        simp [get_user_timezone, h]]
      unfold resolver_spec
      rw [List.findSome?_cons]
      simp [h]

/-! ### Lemmas about the classifier -/

theorem dayStart_emod (off : TZ) (t : Instant) :
    dayStart off t % minutesPerDay = 0 := by
  unfold dayStart wallClock minutesPerDay
  omega

theorem group_go_eq (tz : TZ) (td : Int) (l : List Task) :
    group_go tz td l =
      ⟨l.filter (fun t => decide (classify_task tz td t = .overdue)),
       l.filter (fun t => decide (classify_task tz td t = .today)),
       l.filter (fun t => decide (classify_task tz td t = .tomorrow)),
       l.filter (fun t => decide (classify_task tz td t = .later))⟩ := by
  induction l with
  | nil => rfl
  | cons t ts ih =>
    cases h : classify_task tz td t <;>
      simp [group_go, h, ih, List.filter_cons]

theorem classify_decide_overdue (tz td : Int) (t : Task) :
    decide (classify_task tz td t = GroupKey.overdue)
      = (match t.dueDate with
         | some (some d) => decide (dayStart tz d < td)
         | _ => false) := by
  obtain ⟨i, ti, p, tzf, dd, ct⟩ := t
  rcases dd with _ | _ | d <;> simp only [classify_task]
  · simp
  · simp
  · split_ifs with h1 h2 h3 <;> simp_all

theorem classify_decide_today (tz td : Int) (t : Task) :
    decide (classify_task tz td t = GroupKey.today)
      = (match t.dueDate with
         | some (some d) => decide (dayStart tz d = td)
         | _ => false) := by
  obtain ⟨i, ti, p, tzf, dd, ct⟩ := t
  rcases dd with _ | _ | d <;> simp only [classify_task]
  · simp
  · simp
  · split_ifs with h1 h2 h3 <;> simp_all [minutesPerDay] <;> omega

theorem classify_decide_tomorrow (tz td : Int) (t : Task) :
    decide (classify_task tz td t = GroupKey.tomorrow)
      = (match t.dueDate with
         | some (some d) => decide (dayStart tz d = td + minutesPerDay)
         | _ => false) := by
  obtain ⟨i, ti, p, tzf, dd, ct⟩ := t
  rcases dd with _ | _ | d <;> simp only [classify_task]
  · simp
  · simp
  · split_ifs with h1 h2 h3 <;> simp_all [minutesPerDay] <;> omega

theorem classify_decide_later (tz td : Int) (t : Task) (hm : td % minutesPerDay = 0) :
    decide (classify_task tz td t = GroupKey.later)
      = (match t.dueDate with
         | some (some d) => decide (td + minutesPerDay < dayStart tz d)
         | _ => true) := by
  obtain ⟨i, ti, p, tzf, dd, ct⟩ := t
  rcases dd with _ | _ | d <;> simp only [classify_task]
  · simp
  · simp
  · have hd := dayStart_emod tz d
    split_ifs with h1 h2 h3 <;> simp_all [minutesPerDay] <;> omega

/-! ### Claims about the classifier -/

/-- C2: for every task list, with `tz` the resolved timezone and `now` the
current instant, `group_tasks_by_time` buckets exactly as follows: tasks
with no due date or an unparsable due date go to later; otherwise, writing
`due_day_start` for midnight of the due date in `tz` and `today_start` for
midnight of `now` in `tz`, a task goes to overdue when
`due_day_start < today_start`, to today when they are equal, to tomorrow
when `due_day_start = today_start + 1 day`, and to later when
`due_day_start > today_start + 1 day` — calendar-day comparison in `tz`,
never consulting the task's priority or the elapsed hours. -/
theorem group_tasks_by_time_buckets (sysTz : Option TZ) (now : Instant)
    (tasks : List Task) :
    ((group_tasks_by_time sysTz now tasks).overdue
        = tasks.filter (fun t =>
            match t.dueDate with
            | some (some d) =>
              decide (dayStart (get_user_timezone sysTz tasks) d
                < dayStart (get_user_timezone sysTz tasks) now)
            | _ => false)) ∧
    ((group_tasks_by_time sysTz now tasks).today
        = tasks.filter (fun t =>
            match t.dueDate with
            | some (some d) =>
              decide (dayStart (get_user_timezone sysTz tasks) d
                = dayStart (get_user_timezone sysTz tasks) now)
            | _ => false)) ∧
    ((group_tasks_by_time sysTz now tasks).tomorrow
        = tasks.filter (fun t =>
            match t.dueDate with
            | some (some d) =>
              decide (dayStart (get_user_timezone sysTz tasks) d
                = dayStart (get_user_timezone sysTz tasks) now + minutesPerDay)
            | _ => false)) ∧
    ((group_tasks_by_time sysTz now tasks).later
        = tasks.filter (fun t =>
            match t.dueDate with
            | some (some d) =>
              decide (dayStart (get_user_timezone sysTz tasks) now + minutesPerDay
                < dayStart (get_user_timezone sysTz tasks) d)
            | _ => true)) := by
  cases tasks with
  | nil => simp [group_tasks_by_time]
  | cons a l =>
    have hrw : group_tasks_by_time sysTz now (a :: l)
        = group_go (get_user_timezone sysTz (a :: l))
            (dayStart (get_user_timezone sysTz (a :: l)) now) (a :: l) := rfl
    rw [hrw, group_go_eq]
    refine ⟨List.filter_congr ?_, List.filter_congr ?_,
      List.filter_congr ?_, List.filter_congr ?_⟩
    · intro t _
      exact classify_decide_overdue _ _ t
    · intro t _
      exact classify_decide_today _ _ t
    · intro t _
      exact classify_decide_tomorrow _ _ t
    · intro t _
      exact classify_decide_later _ _ t (dayStart_emod _ now)

theorem group_go_concat_perm (tz td : Int) (l : List Task) :
    ((group_go tz td l).overdue ++ (group_go tz td l).today
      ++ (group_go tz td l).tomorrow ++ (group_go tz td l).later).Perm l := by
  induction l with
  | nil => rfl
  | cons t ts ih =>
    cases h : classify_task tz td t
    case overdue =>
      simp only [group_go, h, List.append_assoc, List.cons_append] at ih ⊢
      exact ih.cons t
    case today =>
      simp only [group_go, h, List.append_assoc, List.cons_append] at ih ⊢
      exact List.perm_middle.trans (ih.cons t)
    case tomorrow =>
      simp only [group_go, h, List.append_assoc, List.cons_append] at ih ⊢
      refine ((List.Perm.append_left _ List.perm_middle).trans ?_)
      exact List.perm_middle.trans (ih.cons t)
    case later =>
      simp only [group_go, h, List.append_assoc, List.cons_append] at ih ⊢
      refine ((List.Perm.append_left _ (List.Perm.append_left _ List.perm_middle)).trans ?_)
      refine ((List.Perm.append_left _ List.perm_middle).trans ?_)
      exact List.perm_middle.trans (ih.cons t)

/-- C9: the classifier's output is a partition of its input: the result
always carries the four buckets overdue, today, tomorrow, later (a fixed
four-field record, present even for empty input), their concatenation is a
permutation of the input list (no task dropped, duplicated or modified), and
the buckets are pairwise disjoint, so every input task lands in exactly one
bucket. -/
theorem group_tasks_by_time_partition (sysTz : Option TZ) (now : Instant)
    (tasks : List Task) :
    ((group_tasks_by_time sysTz now tasks).overdue
        ++ (group_tasks_by_time sysTz now tasks).today
        ++ (group_tasks_by_time sysTz now tasks).tomorrow
        ++ (group_tasks_by_time sysTz now tasks).later).Perm tasks ∧
    (∀ t : Task,
      ¬ (t ∈ (group_tasks_by_time sysTz now tasks).overdue ∧
          t ∈ (group_tasks_by_time sysTz now tasks).today) ∧
      ¬ (t ∈ (group_tasks_by_time sysTz now tasks).overdue ∧
          t ∈ (group_tasks_by_time sysTz now tasks).tomorrow) ∧
      ¬ (t ∈ (group_tasks_by_time sysTz now tasks).overdue ∧
          t ∈ (group_tasks_by_time sysTz now tasks).later) ∧
      ¬ (t ∈ (group_tasks_by_time sysTz now tasks).today ∧
          t ∈ (group_tasks_by_time sysTz now tasks).tomorrow) ∧
      ¬ (t ∈ (group_tasks_by_time sysTz now tasks).today ∧
          t ∈ (group_tasks_by_time sysTz now tasks).later) ∧
      ¬ (t ∈ (group_tasks_by_time sysTz now tasks).tomorrow ∧
          t ∈ (group_tasks_by_time sysTz now tasks).later)) := by
  cases tasks with
  | nil =>
    refine ⟨by simp [group_tasks_by_time], ?_⟩
    intro t
    simp [group_tasks_by_time]
  | cons a l =>
    have hrw : group_tasks_by_time sysTz now (a :: l)
        = group_go (get_user_timezone sysTz (a :: l))
            (dayStart (get_user_timezone sysTz (a :: l)) now) (a :: l) := rfl
    rw [hrw]
    refine ⟨group_go_concat_perm _ _ _, ?_⟩
    intro t
    rw [group_go_eq]
    simp only [List.mem_filter, decide_eq_true_eq]
    refine ⟨?_, ?_, ?_, ?_, ?_, ?_⟩ <;>
      rintro ⟨⟨_, h1⟩, ⟨_, h2⟩⟩ <;> rw [h1] at h2 <;> exact GroupKey.noConfusion h2

/-! ### Lemmas about the working set -/

theorem find?_id_of_mem_nodup (l : List Task) (T : Task)
    (hmem : T ∈ l) (hnodup : (l.map Task.id).Nodup) :
    l.find? (fun t => t.id = T.id) = some T := by
  induction l with
  | nil => cases hmem
  | cons a l ih =>
    rw [List.map_cons, List.nodup_cons] at hnodup
    obtain ⟨ha, hl⟩ := hnodup
    by_cases h : a.id = T.id
    · have haT : a = T := by
        rcases List.mem_cons.mp hmem with h2 | h2
        · exact h2.symm
        · exact absurd (h ▸ List.mem_map_of_mem Task.id h2) ha
      subst haT
      exact List.find?_cons_of_pos l (by simp)
    · have hm : T ∈ l := by
        rcases List.mem_cons.mp hmem with h2 | h2
        · exact absurd (h2 ▸ rfl) h
        · exact h2
      rw [List.find?_cons_of_neg l (by simp [h])]
      exact ih hm hl

theorem filter_ne_eq_erase (l : List Task) (T : Task)
    (hmem : T ∈ l) (hnodup : (l.map Task.id).Nodup) :
    l.filter (fun t => !(t.id = T.id)) = l.erase T := by
  induction l with
  | nil => rfl
  | cons a l ih =>
    rw [List.map_cons, List.nodup_cons] at hnodup
    obtain ⟨ha, hl⟩ := hnodup
    by_cases h : a.id = T.id
    · have haT : a = T := by
        rcases List.mem_cons.mp hmem with h2 | h2
        · exact h2.symm
        · exact absurd (h ▸ List.mem_map_of_mem Task.id h2) ha
      subst haT
      rw [List.erase_cons_head]
      have hall : l.filter (fun t => !(t.id = a.id)) = l := by
        apply List.filter_eq_self.mpr
        intro x hx
        have hxa : ¬ x.id = a.id := by
          intro he
          exact ha (he ▸ List.mem_map_of_mem Task.id hx)
        simp [hxa]
      simp [List.filter_cons, hall]
    · have hm : T ∈ l := by
        rcases List.mem_cons.mp hmem with h2 | h2
        · exact absurd (h2 ▸ rfl) h
        · exact h2
      have hne : ¬ a = T := by
        intro he
        exact h (he ▸ rfl)
      rw [List.erase_cons_tail (by simp [hne])]
      simp [List.filter_cons, h, ih hm hl]

/-! ### Concrete fixtures for witnesses and counterexamples -/

/-- A concrete task with id a. -/
def taskA : Task := ⟨"a", "Alpha", some 1, none, none, none⟩

/-- A concrete task with id b. -/
def taskB : Task := ⟨"b", "Beta", some 0, none, none, none⟩

/-- A concrete widget state holding the two tasks and no pending snapshot. -/
def wsAB : WState := ⟨[taskA, taskB], none, ""⟩

/-! ### Claims about the Completion Reconciler -/

/-- C3: with a task T in the working set (ids unique, id non-empty), the
completion request synchronously saves a copy of T as the pending snapshot
and removes T from the working set, which then equals the old set minus T;
if the attempt resolves with failure, the saved copy is re-inserted and the
resulting working set is a permutation of the original (equal as a set by
task id), the display order being re-derived from it by the grouping and
sorting pipeline. -/
theorem completion_optimistic_rollback (s : WState) (T : Task) (err : String)
    (hmem : T ∈ s.tasks) (hnodup : (s.tasks.map Task.id).Nodup)
    (hid : ¬ T.id = "") :
    (handle_task_completion s T.id).pending = some T ∧
    (handle_task_completion s T.id).tasks = s.tasks.erase T ∧
    ((on_task_completion_failed (handle_task_completion s T.id) T.id err).tasks).Perm
      s.tasks := by
  have hfind : s.tasks.find? (fun t => t.id = T.id) = some T :=
    find?_id_of_mem_nodup s.tasks T hmem hnodup
  have hfil : s.tasks.filter (fun t => !(t.id = T.id)) = s.tasks.erase T :=
    filter_ne_eq_erase s.tasks T hmem hnodup
  have hpend : (handle_task_completion s T.id).pending = some T := by
    simp [handle_task_completion, hid, hfind]
  have htasks : (handle_task_completion s T.id).tasks = s.tasks.erase T := by
    simp [handle_task_completion, hid, hfind, hfil]
  refine ⟨hpend, htasks, ?_⟩
  simp only [on_task_completion_failed, hpend, htasks]
  refine (sortStable_perm _ _).trans ?_
  refine (List.perm_append_singleton T _).trans ?_
  exact (List.perm_cons_erase hmem).symm

/-- Witness for the rollback theorem at the concrete two-task state,
completing and failing task a. -/
theorem completion_optimistic_rollback_witness :
    (taskA ∈ wsAB.tasks ∧ (wsAB.tasks.map Task.id).Nodup ∧ ¬ taskA.id = "") ∧
    ((handle_task_completion wsAB taskA.id).pending = some taskA ∧
      (handle_task_completion wsAB taskA.id).tasks = wsAB.tasks.erase taskA ∧
      ((on_task_completion_failed (handle_task_completion wsAB taskA.id)
          taskA.id "gateway down").tasks).Perm wsAB.tasks) :=
  ⟨⟨by decide, by decide, by decide⟩,
    completion_optimistic_rollback wsAB taskA "gateway down"
      (by decide) (by decide) (by decide)⟩

/-- C1 counterexample: start from the working set with tasks a and b, put
completion attempts for a and then for b in flight, then resolve a's attempt
as failed.  The second request overwrote a's rollback snapshot with b's, and
the failure resolution for a re-inserts b's snapshot: the final working set
is exactly the list holding task b, and task a is lost — refuting the claim
that each in-flight attempt keeps its own rollback snapshot per task id and
that a later failure for a re-inserts a's own snapshot. -/
theorem pending_snapshot_overwritten_cex :
    (handle_task_completion (handle_task_completion wsAB taskA.id) taskB.id).pending
        = some taskB ∧
    (on_task_completion_failed
        (handle_task_completion (handle_task_completion wsAB taskA.id) taskB.id)
        taskA.id "gateway down").tasks = [taskB] ∧
    taskA ∉ (on_task_completion_failed
        (handle_task_completion (handle_task_completion wsAB taskA.id) taskB.id)
        taskA.id "gateway down").tasks := by
  decide

/-- C1 (amended): the reconciler keeps a single rollback slot
(`pending_completion_task`), not one per task id.  A second completion
request for the same task id while one is outstanding is ignored without
mutating state; a second request for a distinct task id overwrites the slot
with its own snapshot; and a failure resolution — whichever task id it is
for — re-inserts the slot's current (most recent) snapshot, so the first
request's task is not restored. -/
theorem single_rollback_slot (s : WState) (ta tb : Task) (err : String)
    (hA : ta ∈ s.tasks) (hB : tb ∈ s.tasks)
    (hnodup : (s.tasks.map Task.id).Nodup)
    (hab : ¬ ta.id = tb.id) (hia : ¬ ta.id = "") (hib : ¬ tb.id = "") :
    handle_task_completion (handle_task_completion s ta.id) ta.id
        = handle_task_completion s ta.id ∧
    (handle_task_completion (handle_task_completion s ta.id) tb.id).pending
        = some tb ∧
    ((on_task_completion_failed
        (handle_task_completion (handle_task_completion s ta.id) tb.id)
        ta.id err).tasks).Perm
      ((handle_task_completion (handle_task_completion s ta.id) tb.id).tasks ++ [tb]) ∧
    ta ∉ (on_task_completion_failed
        (handle_task_completion (handle_task_completion s ta.id) tb.id)
        ta.id err).tasks := by
  have hfindA : s.tasks.find? (fun t => t.id = ta.id) = some ta :=
    find?_id_of_mem_nodup s.tasks ta hA hnodup
  have hs1tasks : (handle_task_completion s ta.id).tasks
      = s.tasks.filter (fun t => !(t.id = ta.id)) := by
    simp [handle_task_completion, hia, hfindA]
  have hs1none : (handle_task_completion s ta.id).tasks.find?
      (fun t => t.id = ta.id) = none := by
    rw [hs1tasks]
    apply List.find?_eq_none.mpr
    intro x hx
    have := (List.mem_filter.mp hx).2
    simpa using this
  have hsame : handle_task_completion (handle_task_completion s ta.id) ta.id
      = handle_task_completion s ta.id := by
    set s1 := handle_task_completion s ta.id with hs1
    unfold handle_task_completion
    rw [if_neg hia, hs1none]
  have hBmem : tb ∈ (handle_task_completion s ta.id).tasks := by
    rw [hs1tasks]
    refine List.mem_filter.mpr ⟨hB, ?_⟩
    simp
    intro he
    exact hab (he ▸ rfl)
  have hnodup1 : ((handle_task_completion s ta.id).tasks.map Task.id).Nodup := by
    rw [hs1tasks]
    exact hnodup.sublist (List.Sublist.map Task.id (List.filter_sublist s.tasks))
  have hfindB : (handle_task_completion s ta.id).tasks.find?
      (fun t => t.id = tb.id) = some tb :=
    find?_id_of_mem_nodup _ tb hBmem hnodup1
  have hs2pend : (handle_task_completion (handle_task_completion s ta.id) tb.id).pending
      = some tb := by
    set s1 := handle_task_completion s ta.id with hs1
    unfold handle_task_completion
    rw [if_neg hib, hfindB]
  have hs2tasks : (handle_task_completion (handle_task_completion s ta.id) tb.id).tasks
      = (handle_task_completion s ta.id).tasks.filter (fun t => !(t.id = tb.id)) := by
    set s1 := handle_task_completion s ta.id with hs1
    unfold handle_task_completion
    rw [if_neg hib, hfindB]
  have hperm : ((on_task_completion_failed
      (handle_task_completion (handle_task_completion s ta.id) tb.id)
      ta.id err).tasks).Perm
      ((handle_task_completion (handle_task_completion s ta.id) tb.id).tasks ++ [tb]) := by
    simp only [on_task_completion_failed, hs2pend]
    exact sortStable_perm _ _
  refine ⟨hsame, hs2pend, hperm, ?_⟩
  intro hmem2
  have : ta ∈ (handle_task_completion (handle_task_completion s ta.id) tb.id).tasks
      ++ [tb] := hperm.mem_iff.mp hmem2
  rcases List.mem_append.mp this with h2 | h2
  · rw [hs2tasks] at h2
    have h3 := (List.mem_filter.mp h2).1
    rw [hs1tasks] at h3
    have h4 := (List.mem_filter.mp h3).2
    simp at h4
  · have : ta = tb := by simpa using h2
    exact hab (this ▸ rfl)

/-- Witness for the single-rollback-slot theorem at the concrete two-task
state. -/
theorem single_rollback_slot_witness :
    (taskA ∈ wsAB.tasks ∧ taskB ∈ wsAB.tasks ∧ (wsAB.tasks.map Task.id).Nodup ∧
      ¬ taskA.id = taskB.id ∧ ¬ taskA.id = "" ∧ ¬ taskB.id = "") ∧
    (handle_task_completion (handle_task_completion wsAB taskA.id) taskA.id
        = handle_task_completion wsAB taskA.id ∧
      (handle_task_completion (handle_task_completion wsAB taskA.id) taskB.id).pending
        = some taskB ∧
      ((on_task_completion_failed
          (handle_task_completion (handle_task_completion wsAB taskA.id) taskB.id)
          taskA.id "gateway down").tasks).Perm
        ((handle_task_completion (handle_task_completion wsAB taskA.id) taskB.id).tasks
          ++ [taskB]) ∧
      taskA ∉ (on_task_completion_failed
          (handle_task_completion (handle_task_completion wsAB taskA.id) taskB.id)
          taskA.id "gateway down").tasks) :=
  ⟨⟨by decide, by decide, by decide, by decide, by decide, by decide⟩,
    single_rollback_slot wsAB taskA taskB "gateway down"
      (by decide) (by decide) (by decide) (by decide) (by decide) (by decide)⟩

/-! ### Claims about refresh and the Local Cache save -/

/-- C6 (code-bug exhibit): when the remote fetch fails,
`get_active_standard_tasks` swallows the exception and returns the empty
list, so `refresh_tasks` treats the refresh as a successful sync of zero
tasks: the working set is replaced by the empty list — blanking the display
— and the status reports a zero-task sync rather than an error.  The
`except` branch of `refresh_tasks`, written to preserve the previous list on
a fetch error, is unreachable for fetch failures. -/
theorem refresh_fetch_failure_blanks (s : WState) (e : String) :
    get_active_standard_tasks (Except.error e) = [] ∧
    (refresh_tasks s (Except.error e) true).tasks = [] ∧
    (refresh_tasks s (Except.error e) true).status
        = "Last updated - " ++ toString (0 : Nat) ++ " tasks" :=
  ⟨rfl, rfl, rfl⟩

/-- C7 counterexample: with the file previously holding the old serialized
set, an I/O error injected right after `open(file_path, 'w')` truncates the
file: the call reports failure, but the file now holds nothing — the
previously persisted set is destroyed, refuting intactness; an error
injected mid-dump leaves a strict prefix of the new serialization, so a
reader observes a partially-written set. -/
theorem save_tasks_truncation_cex :
    (save_tasks_to_json (some ["[old]"]) ["[", "new", "]"] false (some 0)).1 = false ∧
    (save_tasks_to_json (some ["[old]"]) ["[", "new", "]"] false (some 0)).2 = some [] ∧
    ¬ (save_tasks_to_json (some ["[old]"]) ["[", "new", "]"] false (some 0)).2
        = some ["[old]"] ∧
    (save_tasks_to_json (some ["[old]"]) ["[", "new", "]"] false (some 2)).2
        = some ["[", "new"] := by
  decide

theorem writeChunks_fail (cs : List String) (n : Nat) (acc : List String)
    (h : n ≤ cs.length) :
    writeChunks cs (some n) acc = (false, acc ++ cs.take n) := by
  induction n generalizing cs acc with
  | zero => cases cs <;> simp [writeChunks]
  | succ n ih =>
    cases cs with
    | nil => simp at h
    | cons c cs2 =>
      rw [show writeChunks (c :: cs2) (some (n + 1)) acc
          = writeChunks cs2 (some n) (acc ++ [c]) from rfl]
      rw [ih cs2 (acc ++ [c]) (by simpa using h)]
      simp

/-- C7 (amended): every injected I/O error makes `save_tasks_to_json` report
failure to the caller by returning false (it never raises) — but the write
is not atomic: a failure at open leaves the previous content intact, while
an error after open leaves exactly the already-written prefix of the new
serialization in the file, so the previously persisted set survives only
when the failure happens before the file is opened. -/
theorem save_tasks_to_json_failure (old : Option (List String))
    (chunks : List String) (n : Nat) (h : n ≤ chunks.length) :
    save_tasks_to_json old chunks true (some n) = (false, old) ∧
    save_tasks_to_json old chunks false (some n) = (false, some (chunks.take n)) := by
  constructor
  · rfl
  · unfold save_tasks_to_json
    rw [if_neg (by simp)]
    simp [writeChunks_fail chunks n [] h]

/-- Witness for the save-failure theorem: a three-chunk serialization with
the fault injected after one chunk. -/
theorem save_tasks_to_json_failure_witness :
    (1 ≤ (["[", "x", "]"] : List String).length) ∧
    (save_tasks_to_json (some ["[old]"]) ["[", "x", "]"] true (some 1)
        = (false, some ["[old]"]) ∧
      save_tasks_to_json (some ["[old]"]) ["[", "x", "]"] false (some 1)
        = (false, some ["["])) :=
  ⟨by decide,
    save_tasks_to_json_failure (some ["[old]"]) ["[", "x", "]"] 1 (by decide)⟩

end TickTick
